import Mathlib

/-!
Verification of the `agent-worktree` (`wt`) tool: a shallow embedding of the
core string-processing, decision and state-manipulating functions of the
Rust sources, together with theorems about the properties stated in the
specification.

Strings are modelled as `List Char` (the character content of Rust `String`
/ `&str` values); file systems and git repository state are modelled as
explicit finite data.  External subprocesses (git itself, hooks, prompts)
are modelled by their recorded results, as the source observes them.
-/

/-- Character content of a string literal, the representation used for Rust
strings throughout this development. -/
def str (s : String) : List Char := s.data

-- ===========================================================================
-- Rust string primitives
-- ===========================================================================

/-- The Unicode `White_Space` property, the set used by Rust's
`char::is_whitespace` (and hence by `str::trim`, `trim_start`, `trim_end`). -/
def rustIsWhitespace (c : Char) : Bool :=
  c = ' ' || c = '\t' || c = '\n' || c = '\x0b' || c = '\x0c' || c = '\r' ||
  c = '\u0085' || c = ' ' || c = ' ' ||
  (0x2000 ≤ c.toNat && c.toNat ≤ 0x200a) ||
  c = ' ' || c = ' ' || c = ' ' || c = ' ' || c = '　'

/-- Rust `str::trim_start`: drop leading whitespace. -/
def trimStartChars (s : List Char) : List Char :=
  s.dropWhile rustIsWhitespace

/-- Rust `str::trim_end`: drop trailing whitespace. -/
def trimEndChars (s : List Char) : List Char :=
  (s.reverse.dropWhile rustIsWhitespace).reverse

/-- Rust `str::trim`: drop leading and trailing whitespace. -/
def trimChars (s : List Char) : List Char :=
  trimEndChars (trimStartChars s)

/-- Split a character list at every occurrence of `sep` (like Rust
`str::split(sep)`); always returns one more chunk than there are
separators, and no chunk contains `sep`. -/
def splitOnChar (sep : Char) : List Char → List (List Char)
  | [] => [[]]
  | c :: rest =>
    if c = sep then [] :: splitOnChar sep rest
    else
      match splitOnChar sep rest with
      | [] => [[c]]
      | h :: t => (c :: h) :: t

/-- Drop a single trailing carriage return, as Rust `str::lines` does for a
`"\r\n"` line ending. -/
def stripCR (l : List Char) : List Char :=
  if l.getLast? = some '\r' then l.dropLast else l

/-- Post-process the chunks produced by splitting on `'\n'`: every chunk
that was followed by a newline loses one trailing `'\r'` (a `"\r\n"`
ending), and a final empty chunk (text ending in `'\n'`) is dropped. -/
def linesCore : List (List Char) → List (List Char)
  | [] => []
  | [last] => if last.isEmpty then [] else [last]
  | c :: c2 :: rest => stripCR c :: linesCore (c2 :: rest)

/-- Rust `str::lines`: split at `'\n'` or `"\r\n"`, with no trailing empty
line for text that ends in a line ending. -/
def rustLines (s : List Char) : List (List Char) :=
  linesCore (splitOnChar '\n' s)

/-- The non-empty lines of a string: `s.lines().filter(|l| !l.is_empty())`
as used by `build_merge_message` in `src/cli/commands/merge.rs`. -/
def nonEmptyLines (s : List Char) : List (List Char) :=
  (rustLines s).filter (fun l => !l.isEmpty)

/-- Rust `str::split_once(' ')`: split at the first space, returning the
parts before and after it, or `none` when there is no space. -/
def splitOnceSpace : List Char → Option (List Char × List Char)
  | [] => none
  | c :: rest =>
    if c = ' ' then some ([], rest)
    else (splitOnceSpace rest).map (fun p => (c :: p.1, p.2))

/-- Rust `str::strip_prefix`: remove `pre` from the front of `s` when it is
a prefix, `none` otherwise. -/
def stripPre (pre s : List Char) : Option (List Char) :=
  if pre.isPrefixOf s then some (s.drop pre.length) else none

/-- Rust `str::contains(pat)` for a string pattern: `pat` occurs as a
contiguous substring of `s`. -/
def containsSub (s pat : List Char) : Bool :=
  (List.range (s.length + 1)).any (fun i => pat.isPrefixOf (s.drop i))

/-- Whether a string ends in a whitespace character. -/
def endsWithWS (l : List Char) : Bool :=
  match l.getLast? with
  | some c => rustIsWhitespace c
  | none => false

-- ===========================================================================
-- git module: error-message translation (src/git/mod.rs)
-- ===========================================================================

/-- The captured output of a finished subprocess: the text content of its
stdout and stderr streams (`std::process::Output`). -/
structure Output where
  stdout : List Char
  stderr : List Char
deriving DecidableEq

/-- `clean_git_error` from `src/git/mod.rs`: trim the stderr text, strip a
leading `"fatal: "` or `"error: "` prefix, and rewrite the specific
git-worktree removal failure mentioning modified or untracked files into a
short actionable sentence naming the branch (the last path component of the
quoted worktree path) and the `--force` flag. -/
def clean_git_error (stderr : List Char) : List Char :=
  let msg := trimChars stderr
  let msg :=
    match stripPre (str "fatal: ") msg with
    | some m => m
    | none =>
      match stripPre (str "error: ") msg with
      | some m => m
      | none => msg
  if containsSub msg (str "contains modified or untracked files") then
    match msg.dropWhile (fun c => c ≠ '\'') with
    | [] => msg
    | _ :: afterQuote =>
      if afterQuote.any (fun c => c = '\'') then
        let path := afterQuote.takeWhile (fun c => c ≠ '\'')
        let branch := (splitOnChar '/' path).getLastD path
        str "worktree '" ++ branch ++ str "' has uncommitted changes, use --force"
      else msg
  else msg

/-- `extract_error` from `src/git/mod.rs`: take the message from stderr
(cleaned by `clean_git_error`) when stderr is non-empty after trimming,
otherwise fall back to the trimmed stdout. -/
def extract_error (output : Output) : List Char :=
  if (trimChars output.stderr).isEmpty then trimChars output.stdout
  else clean_git_error output.stderr

-- ===========================================================================
-- git module: repository identity (src/git/mod.rs, workspace_id)
-- ===========================================================================

/-- One lowercase hexadecimal digit for a value below 16. -/
def hexDigit (n : Nat) : Char :=
  if n < 10 then Char.ofNat ('0'.toNat + n) else Char.ofNat ('a'.toNat + (n - 10))

/-- The 6-hex-digit zero-padded rendering `format!("{:06x}", n)` of a value
below `2^24`. -/
def hex6 (n : Nat) : List Char :=
  [hexDigit (n / 16 ^ 5 % 16), hexDigit (n / 16 ^ 4 % 16), hexDigit (n / 16 ^ 3 % 16),
   hexDigit (n / 16 ^ 2 % 16), hexDigit (n / 16 % 16), hexDigit (n % 16)]

/-- `repo_name` from `src/git/mod.rs`: the file name (last `/`-separated
component) of the repository root path. -/
def repo_name (repoRoot : List Char) : List Char :=
  (splitOnChar '/' repoRoot).getLastD []

/-- `workspace_id` from `src/git/mod.rs`:
`format!("{}-{:06x}", name, hash & 0xFFFFFF)` where `hash` is the value of
the standard library's `DefaultHasher` on the canonical repository root
path.  The hasher's algorithm is explicitly unspecified by the standard
library, so it is a parameter here: any function from paths to 64-bit
values; `& 0xFFFFFF` is taken as `% 2^24`. -/
def workspace_id (hash : List Char → Nat) (repoRoot : List Char) : List Char :=
  repo_name repoRoot ++ '-' :: hex6 (hash repoRoot % 16777216)

/-- The value of a lowercase hexadecimal digit character. -/
def unhexDigit (c : Char) : Nat :=
  if c.toNat ≤ '9'.toNat then c.toNat - '0'.toNat else c.toNat - 'a'.toNat + 10

/-- Read back a 6-hex-digit rendering; inverse of `hex6` below `2^24`. -/
def fromHex6 : List Char → Nat
  | [a, b, c, d, e, f] =>
    ((((unhexDigit a * 16 + unhexDigit b) * 16 + unhexDigit c) * 16 + unhexDigit d) * 16 +
      unhexDigit e) * 16 + unhexDigit f
  | _ => 0

/-- A family of pairwise distinct canonical repository paths that all share
the directory name `repo`: `/aa…a/repo` with `i` letters `a`. -/
def pathFam (i : Nat) : List Char :=
  '/' :: (List.replicate i 'a' ++ '/' :: str "repo")

-- ===========================================================================
-- Worktree store state (worktrees, branches, directories, metadata files)
-- ===========================================================================

/-- Errors of the git adapter (`src/git/mod.rs`, `enum Error`), restricted
to the variants the modelled operations produce. -/
inductive GitError where
  | command (msg : List Char)
  | worktreeNotFound (branch : List Char)
  | worktreeExists (branch : List Char)
deriving DecidableEq

/-- The observable repository / file-system state the worktree lifecycle
commands manipulate: the set of git branches, the registered worktrees
(checkout path paired with branch), the existing worktree directories, the
existing metadata files, and which worktree directories hold uncommitted
changes. -/
structure WtState where
  branches : List (List Char)
  worktrees : List (List Char × List Char)
  dirs : List (List Char)
  files : List (List Char)
  dirtyDirs : List (List Char)
deriving DecidableEq

/-- Tool configuration: the base directory that holds one sub-directory of
worktrees per workspace (`config.workspaces_dir`). -/
structure WtConfig where
  workspacesDir : List Char
deriving DecidableEq

/-- `create_worktree` from `src/git/mod.rs`: if the branch already exists
and is attached to a worktree, fail with `WorktreeExists`; if it exists
unattached, check it out at the new path; otherwise create the branch from
the base and check it out at the new path. -/
def create_worktree (st : WtState) (path branch : List Char) : Except GitError WtState :=
  if branch ∈ st.branches then
    if st.worktrees.any (fun wt => wt.2 = branch) then
      .error (.worktreeExists branch)
    else
      .ok { st with worktrees := (path, branch) :: st.worktrees, dirs := path :: st.dirs }
  else
    .ok { st with branches := branch :: st.branches,
                  worktrees := (path, branch) :: st.worktrees,
                  dirs := path :: st.dirs }

/-- `remove_worktree` from `src/git/mod.rs`: `git worktree remove` fails on
a worktree with uncommitted changes unless `--force` is given; on success
the directory and the worktree registration are gone. -/
def remove_worktree (st : WtState) (path : List Char) (force : Bool) :
    Except GitError WtState :=
  if path ∈ st.dirtyDirs ∧ force = false then
    .error (.command (str "contains modified or untracked files"))
  else
    .ok { st with worktrees := st.worktrees.filter (fun wt => wt.1 ≠ path),
                  dirs := st.dirs.filter (fun d => d ≠ path),
                  dirtyDirs := st.dirtyDirs.filter (fun d => d ≠ path) }

/-- Best-effort branch deletion as used on the removal paths
(`git::delete_branch(..).ok()`): the branch is dropped from the branch
list; a failure of the underlying command is swallowed by the callers. -/
def delete_branch_swallowed (st : WtState) (name : List Char) : WtState :=
  { st with branches := st.branches.filter (fun b => b ≠ name) }

/-- Best-effort file removal (`std::fs::remove_file(..).ok()`). -/
def remove_file_swallowed (st : WtState) (path : List Char) : WtState :=
  { st with files := st.files.filter (fun f => f ≠ path) }

/-- `new::run` from `src/cli/commands/new.rs` for an explicitly named
branch (no snap command): resolve the worktree directory as
`workspaces_dir/{workspace_id}`, create the worktree at
`{workspaces_dir}/{workspace_id}/{branch}`, then write the metadata file
`{branch}.status.toml` beside it.  File copying and hooks touch no state
modelled here. -/
def new_run (hash : List Char → Nat) (cfg : WtConfig) (repoRoot : List Char)
    (st : WtState) (branch : List Char) : Except GitError WtState :=
  let wtDir := cfg.workspacesDir ++ '/' :: workspace_id hash repoRoot
  let wtPath := wtDir ++ '/' :: branch
  match create_worktree st wtPath branch with
  | .error e => .error e
  | .ok st1 =>
    .ok { st1 with files := (wtDir ++ '/' :: branch ++ str ".status.toml") :: st1.files }

/-- `rm::run` from `src/cli/commands/rm.rs` for an explicit branch name:
resolve the worktree directory as `workspaces_dir/{repo_name}` (the
repository directory name, without the hash suffix of `workspace_id`),
fail with `WorktreeNotFound` when that path does not exist, otherwise
remove the worktree, best-effort delete the branch, and best-effort delete
`{branch}.status.toml` in the same directory. -/
def rm_run (cfg : WtConfig) (repoRoot : List Char) (st : WtState)
    (branch : List Char) (force : Bool) : Except GitError WtState :=
  let wtDir := cfg.workspacesDir ++ '/' :: repo_name repoRoot
  let wtPath := wtDir ++ '/' :: branch
  if wtPath ∉ st.dirs then
    .error (.worktreeNotFound branch)
  else
    match remove_worktree st wtPath force with
    | .error e => .error e
    | .ok st1 =>
      let st2 := delete_branch_swallowed st1 branch
      .ok (remove_file_swallowed st2 (wtDir ++ '/' :: branch ++ str ".status.toml"))

-- ===========================================================================
-- Merge orchestrator (src/cli/commands/merge.rs)
-- ===========================================================================

/-- `build_merge_message` from `src/cli/commands/merge.rs`: synthesize the
squash-merge commit message from the branch name and the one-line commit
log between trunk and branch. -/
def build_merge_message (branch log : List Char) : List Char :=
  match nonEmptyLines log with
  | [] => str "Merge branch '" ++ branch ++ str "'"
  | [line] =>
    match splitOnceSpace line with
    | some p => p.2
    | none => str "Merge branch '" ++ branch ++ str "'"
  | l1 :: l2 :: rest =>
    trimEndChars (str "Merge branch '" ++ branch ++ str "'\n\n" ++
      ((l1 :: l2 :: rest).map (fun l => str "* " ++ l ++ ['\n'])).flatten)

deriving instance DecidableEq for Except

/-- The recorded results of the three git operations `abort_merge` tries in
order (`git merge --abort`, `git rebase --abort`, `git reset --merge`). -/
structure AbortEnv where
  mergeAbort : Except (List Char) Unit
  rebaseAbort : Except (List Char) Unit
  resetMerge : Except (List Char) Unit
deriving DecidableEq

/-- `abort_merge` from `src/cli/commands/merge.rs`: try merge-abort, then
rebase-abort, then reset-to-clean; the first that succeeds wins, and only
when all three fail is the error reported. -/
def abort_merge (env : AbortEnv) : Except (List Char) Unit :=
  match env.mergeAbort with
  | .ok _ => .ok ()
  | .error _ =>
    match env.rebaseAbort with
    | .ok _ => .ok ()
    | .error _ =>
      match env.resetMerge with
      | .ok _ => .ok ()
      | .error _ => .error (str "No merge or rebase in progress")

/-- The result of the three attempted git operations in a main repository
with no merge, no rebase and no squash conflict in progress: `git merge
--abort` and `git rebase --abort` fail (there is nothing to abort), while
`git reset --merge` is a no-op success.  These are the behaviours the
repository's own unit tests record (`test_merge_abort_no_merge`,
`test_rebase_abort_no_rebase`, `test_reset_merge_clean_repo` in
`src/git/mod.rs`). -/
def cleanRepoAbortEnv : AbortEnv :=
  { mergeAbort := .error (str "There is no merge to abort (MERGE_HEAD missing).")
    rebaseAbort := .error (str "No rebase in progress?")
    resetMerge := .ok () }

/-- The state observed by a plain `merge::run` invocation (neither
`--continue` nor `--abort`): the current branch, the resolved target
trunk, dirtiness of the worktree and of the main repository, conflict
markers in the main repository, hook configuration, the `--keep` flag, and
the outcome the strategy execution would have (`execute_merge`: error =
conflict, `true` = merged, `false` = nothing to merge). -/
structure MergeEnv where
  currentBranch : List Char
  trunk : List Char
  wtHasUncommitted : Bool
  mainHasUncommitted : Bool
  mergeInProgress : Bool
  rebaseInProgress : Bool
  hasPreMergeHooks : Bool
  hasPostMergeHooks : Bool
  keep : Bool
  mergeOutcome : Except (List Char) Bool
deriving DecidableEq

/-- The externally visible steps a `merge::run` invocation can perform, in
order of execution. -/
inductive MergeStep where
  | preMergeHooks
  | checkoutTrunk
  | executeMerge
  | saveMergeState
  | postMergeHooks
  | cleanupWorktree
deriving DecidableEq

/-- `merge::run` from `src/cli/commands/merge.rs` for a plain invocation
(neither `--continue` nor `--abort`): reject when the source branch equals
the target trunk, then when the worktree has uncommitted changes, then
(after the pre-merge hooks) when the main repository has uncommitted
changes or a merge or rebase in progress; only then check out the trunk
and execute the merge, saving the merge state on a conflict, and running
post-merge hooks plus worktree cleanup (unless `--keep`) on success.
Returns the command result together with the trace of performed steps. -/
def merge_run_attempt (env : MergeEnv) : Except (List Char) Unit × List MergeStep :=
  if env.currentBranch = env.trunk then
    (.error (str "Cannot merge trunk into itself"), [])
  else if env.wtHasUncommitted then
    (.error (str "Uncommitted changes detected. Commit or stash first."), [])
  else
    let hooks := if env.hasPreMergeHooks then [MergeStep.preMergeHooks] else []
    if env.mainHasUncommitted || env.mergeInProgress || env.rebaseInProgress then
      (.error (str "Main repo has uncommitted changes or unresolved conflicts."), hooks)
    else
      match env.mergeOutcome with
      | .error _ =>
        (.ok (), hooks ++ [.checkoutTrunk, .executeMerge, .saveMergeState])
      | .ok merged =>
        let post := if env.hasPostMergeHooks then [MergeStep.postMergeHooks] else []
        let cleanup := if env.keep then [] else [MergeStep.cleanupWorktree]
        let _ := merged
        (.ok (), hooks ++ [.checkoutTrunk, .executeMerge] ++ post ++ cleanup)

/-- Whether an `Except` result is an error. -/
def isErr {ε α : Type} : Except ε α → Bool
  | .error _ => true
  | .ok _ => false

-- ===========================================================================
-- Merge state marker (src/cli/commands/merge.rs, WT_MERGE_BRANCH)
-- ===========================================================================

/-- The content of the single merge-state file
`{repo_root}/.git/WT_MERGE_BRANCH`: `none` when the file does not exist. -/
abbrev MergeStateFile := Option (List Char)

/-- `save_merge_state`: write the branch name to the marker file. -/
def save_merge_state (branch : List Char) (_fs : MergeStateFile) : MergeStateFile :=
  some branch

/-- `load_merge_state`: read the marker file; a missing file is `none` (no
merge in progress), not an error, and the content is trimmed. -/
def load_merge_state (fs : MergeStateFile) : Except (List Char) (Option (List Char)) :=
  match fs with
  | some s => .ok (some (trimChars s))
  | none => .ok none

/-- `clear_merge_state`: remove the marker file (errors swallowed). -/
def clear_merge_state (_fs : MergeStateFile) : MergeStateFile :=
  none

-- ===========================================================================
-- Snap decision function (src/cli/commands/snap_continue.rs)
-- ===========================================================================

/-- Action to take after the snap mode agent exits. -/
inductive SnapAction where
  | cleanupNoChanges
  | mergeAndCleanup
  | exitPreserve
  | reopen
deriving DecidableEq

/-- User choice at the reopen-or-exit prompt. -/
inductive SnapExitChoice where
  | reopen
  | exit
deriving DecidableEq

/-- User choice at the merge-or-exit prompt. -/
inductive SnapMergeChoice where
  | merge
  | exit
deriving DecidableEq

/-- `determine_action_with_choice` from `src/cli/commands/snap_continue.rs`:
the pure snap decision function over the gathered state (uncommitted
changes, commits ahead of trunk) and the user's prompt choices (`none`
models a failed or dismissed prompt). -/
def determine_action_with_choice (has_uncommitted has_commits_ahead : Bool)
    (exit_choice : Option SnapExitChoice) (merge_choice : Option SnapMergeChoice) :
    SnapAction :=
  if !has_uncommitted && !has_commits_ahead then
    .cleanupNoChanges
  else if !has_uncommitted && has_commits_ahead then
    match merge_choice with
    | some .merge => .mergeAndCleanup
    | some .exit => .exitPreserve
    | none => .exitPreserve
  else
    match exit_choice with
    | some .reopen => .reopen
    | some .exit => .exitPreserve
    | none => .exitPreserve

-- ===========================================================================
-- Shell hand-off channel (src/cli/mod.rs)
-- ===========================================================================

/-- `write_path_file` from `src/cli/mod.rs`: the file content written for a
single destination path. -/
def write_path_file (path : List Char) : List Char :=
  path

/-- `write_path_file_lines` from `src/cli/mod.rs`: the file content written
for several lines, `lines.join("\n")`. -/
def write_path_file_lines (lines : List (List Char)) : List Char :=
  List.intercalate ['\n'] lines

-- ===========================================================================
-- Metadata path handling (src/meta/mod.rs)
-- ===========================================================================

/-- An existing-files model for the metadata directory: the list of paths
that exist. -/
abbrev MetaFs := List (List Char)

/-- `meta_path` from `src/meta/mod.rs`: the new-format metadata path
`{wt_dir}/{branch}.toml`. -/
def meta_path (wtDir branch : List Char) : List Char :=
  wtDir ++ '/' :: branch ++ str ".toml"

/-- The legacy metadata path `{wt_dir}/{branch}.status.toml`. -/
def legacy_meta_path (wtDir branch : List Char) : List Char :=
  wtDir ++ '/' :: branch ++ str ".status.toml"

/-- `meta_path_with_fallback` from `src/meta/mod.rs`: prefer the new-format
path when it exists, fall back to the legacy path when that exists, and
default to the new-format path. -/
def meta_path_with_fallback (fs : MetaFs) (wtDir branch : List Char) : List Char :=
  if meta_path wtDir branch ∈ fs then meta_path wtDir branch
  else if legacy_meta_path wtDir branch ∈ fs then legacy_meta_path wtDir branch
  else meta_path wtDir branch

/-- `remove_meta` from `src/meta/mod.rs`: delete both the new-format and
the legacy metadata file; removal failures are swallowed (`.ok()`), so the
operation is total and never reports an error. -/
def remove_meta (fs : MetaFs) (wtDir branch : List Char) : MetaFs :=
  fs.filter (fun p => p ≠ meta_path wtDir branch ∧ p ≠ legacy_meta_path wtDir branch)

-- ===========================================================================
-- Theorems
-- ===========================================================================

/-- C4: the snap decision function is total (it is a Lean function) and
deterministic, and matches the decision table: no uncommitted changes and
no commits ahead yields `CleanupNoChanges` regardless of the choices; no
uncommitted changes but commits ahead yields `MergeAndCleanup` on a merge
choice and `ExitPreserve` on exit-or-none; uncommitted changes yield
`Reopen` on a reopen choice and `ExitPreserve` on exit-or-none. -/
theorem snap_decision_table :
    (∀ ec mc, determine_action_with_choice false false ec mc = .cleanupNoChanges)
    ∧ (∀ ec, determine_action_with_choice false true ec (some .merge) = .mergeAndCleanup)
    ∧ (∀ ec mc, mc ≠ some SnapMergeChoice.merge →
        determine_action_with_choice false true ec mc = .exitPreserve)
    ∧ (∀ hc mc, determine_action_with_choice true hc (some .reopen) mc = .reopen)
    ∧ (∀ hc ec mc, ec ≠ some SnapExitChoice.reopen →
        determine_action_with_choice true hc ec mc = .exitPreserve) := by
  refine ⟨fun ec mc => rfl, fun ec => rfl, ?_, ?_, ?_⟩
  · rintro ec (_ | ⟨_ | _⟩) h <;> simp_all [determine_action_with_choice]
  · rintro (_ | _) mc <;> rfl
  · rintro (_ | _) (_ | ⟨_ | _⟩) mc h <;> simp_all [determine_action_with_choice]

/-- C4 witness: the decision table evaluated at a concrete corner
(uncommitted changes present, prompt dismissed). -/
theorem snap_decision_table_witness :
    determine_action_with_choice true false none none = .exitPreserve :=
  snap_decision_table.2.2.2.2 false none none (by decide)

/-- C6: the MergeState marker round-trips: saving a branch name then
loading returns it trimmed of surrounding whitespace, and clearing removes
the file so that a subsequent load returns the absent value (`none`), not
an error. -/
theorem merge_state_round_trip :
    (∀ (branch : List Char) (fs : MergeStateFile),
      load_merge_state (save_merge_state branch fs) = .ok (some (trimChars branch)))
    ∧ (∀ fs : MergeStateFile, load_merge_state (clear_merge_state fs) = .ok none) :=
  ⟨fun _ _ => rfl, fun _ => rfl⟩

/-- C2 counterexample: in a clean main repository (no merge, no rebase, no
squash conflict in progress — git-operation results as recorded by the
repository's own tests in `cleanRepoAbortEnv`), the abort operation does
NOT fail: the first two fallback attempts fail but `git reset --merge` is
a no-op success, so `abort_merge` silently succeeds. -/
theorem abort_merge_clean_repo_succeeds :
    abort_merge cleanRepoAbortEnv = .ok () ∧ isErr (abort_merge cleanRepoAbortEnv) = false :=
  ⟨rfl, rfl⟩

/-- C2 (amended): `abort_merge` reports the error "No merge or rebase in
progress" exactly when all three fallback attempts (merge-abort,
rebase-abort, reset-to-clean) fail; in a clean main repository the first
two attempts fail but the reset-to-clean attempt succeeds, so the
operation returns success rather than an error. -/
theorem abort_merge_error_iff_all_fail :
    (∀ env : AbortEnv,
      abort_merge env = .error (str "No merge or rebase in progress") ↔
        isErr env.mergeAbort = true ∧ isErr env.rebaseAbort = true ∧
        isErr env.resetMerge = true)
    ∧ abort_merge cleanRepoAbortEnv = .ok () := by
  refine ⟨?_, rfl⟩
  rintro ⟨ma, ra, rm⟩
  cases ma <;> cases ra <;> cases rm <;> simp [abort_merge, isErr]

/-- C10: metadata lookup tolerates the legacy file name:
`meta_path_with_fallback` returns the new-format path `{branch}.toml` when
it exists, otherwise the legacy path `{branch}.status.toml` when that
exists, otherwise the new-format path; and `remove_meta` removes both file
names (it is a total function — errors are swallowed) while leaving every
other file untouched. -/
theorem meta_fallback_and_remove (fs : MetaFs) (wtDir branch : List Char) :
    (meta_path wtDir branch ∈ fs →
      meta_path_with_fallback fs wtDir branch = meta_path wtDir branch)
    ∧ (meta_path wtDir branch ∉ fs → legacy_meta_path wtDir branch ∈ fs →
      meta_path_with_fallback fs wtDir branch = legacy_meta_path wtDir branch)
    ∧ (meta_path wtDir branch ∉ fs → legacy_meta_path wtDir branch ∉ fs →
      meta_path_with_fallback fs wtDir branch = meta_path wtDir branch)
    ∧ meta_path wtDir branch ∉ remove_meta fs wtDir branch
    ∧ legacy_meta_path wtDir branch ∉ remove_meta fs wtDir branch
    ∧ (∀ p, p ≠ meta_path wtDir branch → p ≠ legacy_meta_path wtDir branch →
        (p ∈ remove_meta fs wtDir branch ↔ p ∈ fs)) := by
  refine ⟨fun h => by simp [meta_path_with_fallback, h],
          fun h h' => by simp [meta_path_with_fallback, h, h'],
          fun h h' => by simp [meta_path_with_fallback, h, h'], ?_, ?_, ?_⟩
  · simp [remove_meta]
  · simp [remove_meta]
  · intro p hp hp'
    simp [remove_meta, List.mem_filter, hp, hp']

/-- C10 witness: the fallback and removal behaviour evaluated on a
concrete directory that contains only the legacy metadata file. -/
theorem meta_fallback_and_remove_witness :
    meta_path_with_fallback [legacy_meta_path (str "/ws") (str "fox")]
        (str "/ws") (str "fox") = legacy_meta_path (str "/ws") (str "fox")
    ∧ legacy_meta_path (str "/ws") (str "fox") ∉
        remove_meta [legacy_meta_path (str "/ws") (str "fox")] (str "/ws") (str "fox") := by
  constructor
  · exact (meta_fallback_and_remove [legacy_meta_path (str "/ws") (str "fox")]
      (str "/ws") (str "fox")).2.1 (by decide) (by decide)
  · exact (meta_fallback_and_remove [legacy_meta_path (str "/ws") (str "fox")]
      (str "/ws") (str "fox")).2.2.2.2.1

-- ---------------------------------------------------------------------------
-- Line-splitting lemmas
-- ---------------------------------------------------------------------------

theorem splitOnChar_ne_nil (sep : Char) (s : List Char) : splitOnChar sep s ≠ [] := by
  induction s with
  | nil => simp [splitOnChar]
  | cons c rest ih =>
    simp only [splitOnChar]
    split
    · simp
    · rcases hsp : splitOnChar sep rest with _ | ⟨a, t⟩ <;> simp [hsp]

theorem splitOnChar_of_not_mem (sep : Char) (a : List Char) (h : sep ∉ a) :
    splitOnChar sep a = [a] := by
  induction a with
  | nil => rfl
  | cons c rest ih =>
    have hc : ¬ c = sep := by rintro rfl; exact h (List.mem_cons_self _ _)
    have h' : sep ∉ rest := fun hm => h (List.mem_cons_of_mem _ hm)
    simp [splitOnChar, hc, ih h']

theorem splitOnChar_append (sep : Char) (a r : List Char) (h : sep ∉ a) :
    splitOnChar sep (a ++ sep :: r) = a :: splitOnChar sep r := by
  induction a with
  | nil => simp [splitOnChar]
  | cons c rest ih =>
    have hc : ¬ c = sep := by rintro rfl; exact h (List.mem_cons_self _ _)
    have h' : sep ∉ rest := fun hm => h (List.mem_cons_of_mem _ hm)
    simp [splitOnChar, hc, ih h']

theorem not_mem_of_mem_splitOnChar (sep : Char) (s : List Char) :
    ∀ c ∈ splitOnChar sep s, sep ∉ c := by
  induction s with
  | nil =>
    intro c hc
    simp [splitOnChar] at hc
    simp [hc]
  | cons x rest ih =>
    intro c hc
    simp only [splitOnChar] at hc
    by_cases hx : x = sep
    · simp [hx] at hc
      rcases hc with hc | hc
      · simp [hc]
      · exact ih c hc
    · rcases hsp : splitOnChar sep rest with _ | ⟨a, t⟩
      · exact absurd hsp (splitOnChar_ne_nil sep rest)
      · simp [hx, hsp] at hc
        rcases hc with hc | hc
        · subst hc
          intro hmem
          rcases List.mem_cons.mp hmem with h1 | h1
          · exact hx h1.symm
          · exact ih a (by simp [hsp]) h1
        · exact ih c (by simp [hsp, hc])

theorem stripCR_eq_self (l : List Char) (h : l.getLast? ≠ some '\r') : stripCR l = l := by
  simp [stripCR, h]

theorem rustLines_single (p : List Char) (hp : '\n' ∉ p) (hne : p ≠ []) :
    rustLines p = [p] := by
  unfold rustLines
  rw [splitOnChar_of_not_mem _ _ hp]
  cases p with
  | nil => exact absurd rfl hne
  | cons c t => simp [linesCore]

theorem rustLines_pair (p c : List Char) (hp : '\n' ∉ p) (hpr : p.getLast? ≠ some '\r')
    (hc : '\n' ∉ c) (hcne : c ≠ []) : rustLines (p ++ '\n' :: c) = [p, c] := by
  unfold rustLines
  rw [splitOnChar_append _ _ _ hp, splitOnChar_of_not_mem _ _ hc]
  cases c with
  | nil => exact absurd rfl hcne
  | cons x t => simp [linesCore, stripCR_eq_self _ hpr]

/-- C9: the hand-off file encoding round-trips.  Writing a path plus a
command yields a file whose first line is exactly the path and whose
second line is exactly the command; writing a path alone yields a file
whose lines are exactly the path, so the second element is absent (and in
particular never accidentally equal to the path).  The hypotheses state
that the path and command are single-line texts (no embedded newline, path
not ending in a carriage return, both non-empty). -/
theorem handoff_round_trip (p c : List Char) (hp : '\n' ∉ p)
    (hpr : p.getLast? ≠ some '\r') (hpne : p ≠ []) (hc : '\n' ∉ c) (hcne : c ≠ []) :
    rustLines (write_path_file_lines [p, c]) = [p, c]
    ∧ rustLines (write_path_file p) = [p]
    ∧ (rustLines (write_path_file p))[1]? = none
    ∧ (rustLines (write_path_file p))[1]? ≠ some p := by
  have hjoin : write_path_file_lines [p, c] = p ++ '\n' :: c := by
    simp [write_path_file_lines, List.intercalate, List.intersperse]
  have h1 : rustLines (write_path_file_lines [p, c]) = [p, c] := by
    rw [hjoin]; exact rustLines_pair p c hp hpr hc hcne
  have h2 : rustLines (write_path_file p) = [p] := rustLines_single p hp hpne
  refine ⟨h1, h2, ?_, ?_⟩ <;> rw [h2] <;> simp

/-- C9 witness: the round trip evaluated at a concrete path and command. -/
theorem handoff_round_trip_witness :
    rustLines (write_path_file_lines [str "/ws/proj/fox", str "claude"]) =
      [str "/ws/proj/fox", str "claude"]
    ∧ (rustLines (write_path_file (str "/ws/proj/fox")))[1]? = none := by
  have h := handoff_round_trip (str "/ws/proj/fox") (str "claude")
    (by decide) (by decide) (by decide) (by decide) (by decide)
  exact ⟨h.1, h.2.2.1⟩

-- ---------------------------------------------------------------------------
-- Lemmas for the synthesized squash commit message
-- ---------------------------------------------------------------------------

theorem isPrefixOf_append_self (p s : List Char) : p.isPrefixOf (p ++ s) = true := by
  induction p with
  | nil => cases s <;> rfl
  | cons c t ih =>
    show (c == c && t.isPrefixOf (t ++ s)) = true
    simp [ih]

theorem mem_stripCR_subset (l : List Char) : stripCR l ⊆ l := by
  unfold stripCR
  split
  · intro x hx
    exact List.dropLast_subset l hx
  · exact fun _ h => h

theorem linesCore_no_char (ch : Char) (cs : List (List Char))
    (h : ∀ c ∈ cs, ch ∉ c) : ∀ l ∈ linesCore cs, ch ∉ l := by
  induction cs with
  | nil => simp [linesCore]
  | cons c rest ih =>
    cases rest with
    | nil =>
      intro l hl
      simp only [linesCore] at hl
      by_cases hce : c.isEmpty = true
      · simp [hce] at hl
      · simp [hce] at hl
        subst hl
        exact h _ (by simp)
    | cons c2 t =>
      intro l hl
      simp only [linesCore] at hl
      rcases List.mem_cons.mp hl with hl | hl
      · subst hl
        intro hmem
        exact h c (by simp) (mem_stripCR_subset c hmem)
      · exact ih (fun x hx => h x (List.mem_cons_of_mem _ hx)) l hl

theorem rustLines_no_newline (s : List Char) : ∀ l ∈ rustLines s, '\n' ∉ l :=
  linesCore_no_char '\n' _ (not_mem_of_mem_splitOnChar '\n' s)

theorem nonEmptyLines_props (s : List Char) :
    ∀ l ∈ nonEmptyLines s, l ≠ [] ∧ '\n' ∉ l := by
  intro l hl
  have h := List.mem_filter.mp hl
  refine ⟨by simpa using h.2, rustLines_no_newline s l h.1⟩

theorem linesCore_id (bs : List (List Char))
    (h : ∀ b ∈ bs, b ≠ [] ∧ b.getLast? ≠ some '\r') : linesCore bs = bs := by
  induction bs with
  | nil => rfl
  | cons b rest ih =>
    cases rest with
    | nil => simp [linesCore, (h b (by simp)).1]
    | cons b2 t =>
      simp only [linesCore]
      rw [stripCR_eq_self b (h b (by simp)).2,
        ih (fun x hx => h x (List.mem_cons_of_mem _ hx))]

theorem getLast_ne_cr_of_not_ws (l : List Char) (h : endsWithWS l = false) :
    l.getLast? ≠ some '\r' := by
  intro hc
  have ht : endsWithWS l = true := by
    unfold endsWithWS
    rw [hc]
    decide
  rw [ht] at h
  exact Bool.noConfusion h

theorem trimEnd_append_newline (y : List Char) (h : endsWithWS y = false) :
    trimEndChars (y ++ ['\n']) = y := by
  unfold trimEndChars
  have hrev : (y ++ ['\n']).reverse = '\n' :: y.reverse := by simp
  rw [hrev, List.dropWhile_cons]
  have hnl : rustIsWhitespace '\n' = true := by decide
  simp only [hnl, if_true]
  cases hy : y.reverse with
  | nil =>
    have : y = [] := by simpa using congrArg List.reverse hy
    simp [this]
  | cons c t =>
    have hlast : y.getLast? = some c := by
      rw [← List.head?_reverse, hy]
      rfl
    have hcw : rustIsWhitespace c = false := by
      unfold endsWithWS at h
      rw [hlast] at h
      exact h
    rw [List.dropWhile_cons]
    simp only [hcw, Bool.false_eq_true, if_false]
    rw [← hy, List.reverse_reverse]

theorem flatten_newline_blocks (bs : List (List Char))
    (h : ∀ b ∈ bs, b ≠ [] ∧ endsWithWS b = false ∧ '\n' ∉ b) (hne : bs ≠ []) :
    ∃ y, (bs.map (fun b => b ++ ['\n'])).flatten = y ++ ['\n']
      ∧ y ≠ [] ∧ endsWithWS y = false ∧ splitOnChar '\n' y = bs := by
  induction bs with
  | nil => exact absurd rfl hne
  | cons b rest ih =>
    cases rest with
    | nil =>
      refine ⟨b, by simp, (h b (by simp)).1, (h b (by simp)).2.1, ?_⟩
      exact splitOnChar_of_not_mem '\n' b (h b (by simp)).2.2
    | cons b2 t =>
      obtain ⟨y, hy, hyne, hyws, hysplit⟩ :=
        ih (fun x hx => h x (List.mem_cons_of_mem _ hx)) (by simp)
      refine ⟨b ++ '\n' :: y, ?_, by simp, ?_, ?_⟩
      · show (List.map (fun b => b ++ ['\n']) (b :: b2 :: t)).flatten = (b ++ '\n' :: y) ++ ['\n']
        rw [List.map_cons, List.flatten_cons, hy]
        simp
      · obtain ⟨c, hc⟩ := Option.isSome_iff_exists.mp (List.getLast?_isSome.mpr hyne)
        have h1 : (b ++ '\n' :: y).getLast? = some c := by
          rw [List.getLast?_append, show ('\n' :: y) = ['\n'] ++ y from rfl,
            List.getLast?_append, hc]
          rfl
        unfold endsWithWS
        rw [h1]
        unfold endsWithWS at hyws
        rw [hc] at hyws
        exact hyws
      · rw [splitOnChar_append '\n' b y (h b (by simp)).2.2, hysplit]

theorem splitOnceSpace_append (a r : List Char) (h : ' ' ∉ a) :
    splitOnceSpace (a ++ ' ' :: r) = some (a, r) := by
  induction a with
  | nil => simp [splitOnceSpace]
  | cons c rest ih =>
    have hc : ¬ c = ' ' := by rintro rfl; exact h (List.mem_cons_self _ _)
    have h' : ' ' ∉ rest := fun hm => h (List.mem_cons_of_mem _ hm)
    simp [splitOnceSpace, hc, ih h']

theorem endsWithWS_append (a l : List Char) (hl : l ≠ []) :
    endsWithWS (a ++ l) = endsWithWS l := by
  obtain ⟨c, hc⟩ := Option.isSome_iff_exists.mp (List.getLast?_isSome.mpr hl)
  unfold endsWithWS
  rw [List.getLast?_append, hc]
  rfl

/-- C3: the synthesized squash commit message.  With no (non-empty) log
lines the message is exactly `Merge branch 'x'`; with exactly one log line
`<hash> <msg>` (the hash contains no space) the message is exactly `<msg>`,
the short-hash prefix stripped; with two or more log lines the message
starts with `Merge branch 'x'` followed by a blank line, and its lines
after that are exactly one `* `-prefixed line per input commit, in the
same order as the input log.  For the multi-commit case the branch name is
a single-line text and the log lines carry no trailing whitespace (as
`git log --oneline` output does). -/
theorem build_merge_message_cases (x log : List Char) :
    (nonEmptyLines log = [] →
      build_merge_message x log = str "Merge branch '" ++ x ++ str "'")
    ∧ (∀ hash msg, ' ' ∉ hash → nonEmptyLines log = [hash ++ ' ' :: msg] →
      build_merge_message x log = msg)
    ∧ (∀ l1 l2 rest, nonEmptyLines log = l1 :: l2 :: rest → '\n' ∉ x →
      (∀ l ∈ nonEmptyLines log, endsWithWS l = false) →
      (str "Merge branch '" ++ x ++ str "'\n\n").isPrefixOf (build_merge_message x log) = true
      ∧ rustLines (build_merge_message x log) =
          (str "Merge branch '" ++ x ++ str "'") :: [] ::
            (l1 :: l2 :: rest).map (fun l => str "* " ++ l)) := by
  refine ⟨?_, ?_, ?_⟩
  · intro h
    simp only [build_merge_message, h]
  · intro hash msg hsp h
    simp only [build_merge_message, h]
    rw [splitOnceSpace_append hash msg hsp]
  · intro l1 l2 rest heq hx hws
    have hprops : ∀ l ∈ l1 :: l2 :: rest, l ≠ [] ∧ '\n' ∉ l := by
      intro l hl
      exact nonEmptyLines_props log l (heq ▸ hl)
    have hws' : ∀ l ∈ l1 :: l2 :: rest, endsWithWS l = false := by
      intro l hl
      exact hws l (heq ▸ hl)
    have hstar : str "* " = ['*', ' '] := rfl
    have hbul : ∀ b ∈ (l1 :: l2 :: rest).map (fun l => str "* " ++ l),
        b ≠ [] ∧ endsWithWS b = false ∧ '\n' ∉ b := by
      intro b hb
      obtain ⟨l, hl, rfl⟩ := List.mem_map.mp hb
      refine ⟨by simp [hstar], ?_, ?_⟩
      · rw [endsWithWS_append _ _ (hprops l hl).1]
        exact hws' l hl
      · intro hm
        rcases List.mem_append.mp hm with hm | hm
        · rw [hstar] at hm
          exact absurd hm (by decide)
        · exact (hprops l hl).2 hm
    obtain ⟨y, hy, hyne, hyws, hysplit⟩ :=
      flatten_newline_blocks _ hbul (by simp)
    have hmap : (l1 :: l2 :: rest).map (fun l => str "* " ++ l ++ ['\n']) =
        ((l1 :: l2 :: rest).map (fun l => str "* " ++ l)).map (fun b => b ++ ['\n']) := by
      rw [List.map_map]
      rfl
    have hmsg : build_merge_message x log =
        (str "Merge branch '" ++ x ++ str "'\n\n") ++ y := by
      simp only [build_merge_message, heq]
      rw [hmap, hy, ← List.append_assoc]
      rw [trimEnd_append_newline _ ?ws]
      case ws =>
        rw [endsWithWS_append _ _ hyne]
        exact hyws
    have hquote : str "'\n\n" = '\'' :: '\n' :: '\n' :: [] := rfl
    have hmsg2 : build_merge_message x log =
        (str "Merge branch '" ++ x ++ str "'") ++ '\n' :: '\n' :: y := by
      rw [hmsg, hquote]
      show str "Merge branch '" ++ x ++ ['\'', '\n', '\n'] ++ y =
        str "Merge branch '" ++ x ++ ['\''] ++ ('\n' :: '\n' :: y)
      simp [List.append_assoc]
    have hheadnl : '\n' ∉ str "Merge branch '" ++ x ++ str "'" := by
      intro hm
      rcases List.mem_append.mp hm with hm | hm
      · rcases List.mem_append.mp hm with hm | hm
        · exact absurd hm (by decide)
        · exact hx hm
      · exact absurd hm (by decide)
    constructor
    · rw [hmsg]
      exact isPrefixOf_append_self _ _
    · rw [hmsg2]
      unfold rustLines
      rw [splitOnChar_append '\n' _ ('\n' :: y) hheadnl]
      have hsp2 : splitOnChar '\n' ('\n' :: y) = [] :: splitOnChar '\n' y := by
        simp [splitOnChar]
      rw [hsp2, hysplit]
      have hlast : (str "Merge branch '" ++ x ++ str "'").getLast? = some '\'' := by
        show (str "Merge branch '" ++ x ++ ['\'']).getLast? = some '\''
        rw [List.append_assoc, List.getLast?_append, List.getLast?_append]
        rfl
      have hbul' : ∀ b ∈ (l1 :: l2 :: rest).map (fun l => str "* " ++ l),
          b ≠ [] ∧ b.getLast? ≠ some '\r' := by
        intro b hb
        exact ⟨(hbul b hb).1, getLast_ne_cr_of_not_ws b (hbul b hb).2.1⟩
      show linesCore ((str "Merge branch '" ++ x ++ str "'") :: [] ::
        (l1 :: l2 :: rest).map (fun l => str "* " ++ l)) = _
      rw [show ∀ a b c, linesCore (a :: b :: c) = stripCR a :: linesCore (b :: c) from
        fun a b c => rfl]
      rw [stripCR_eq_self _ (by rw [hlast]; decide)]
      rw [List.map_cons]
      rw [show ∀ b c, linesCore ([] :: b :: c) = stripCR [] :: linesCore (b :: c) from
        fun b c => rfl]
      rw [← List.map_cons]
      rw [linesCore_id _ hbul']
      rfl

/-- C3 witness: the multi-commit case evaluated at a concrete branch and a
concrete two-commit log. -/
theorem build_merge_message_cases_witness :
    (str "Merge branch 'feature-x'\n\n").isPrefixOf
      (build_merge_message (str "feature-x") (str "abc1234 Fix bug\ndef5678 Add tests\n")) = true
    ∧ rustLines
        (build_merge_message (str "feature-x") (str "abc1234 Fix bug\ndef5678 Add tests\n")) =
        [str "Merge branch 'feature-x'", [], str "* abc1234 Fix bug", str "* def5678 Add tests"] := by
  have h := (build_merge_message_cases (str "feature-x")
      (str "abc1234 Fix bug\ndef5678 Add tests\n")).2.2
      (str "abc1234 Fix bug") (str "def5678 Add tests") []
      (by decide) (by decide) (by decide)
  exact ⟨h.1, h.2⟩

/-- C5: for a plain merge invocation (neither `--continue` nor `--abort`),
whenever any precondition fails — the source branch equals the target
trunk, the worktree has uncommitted changes, or the main repository has
uncommitted changes, a merge in progress, or a rebase in progress — the
operation returns an error and performs no merge step: it neither checks
out the trunk, nor executes a merge, nor saves merge state. -/
theorem merge_preconditions_reject (env : MergeEnv)
    (h : env.currentBranch = env.trunk ∨ env.wtHasUncommitted = true ∨
      env.mainHasUncommitted = true ∨ env.mergeInProgress = true ∨
      env.rebaseInProgress = true) :
    isErr (merge_run_attempt env).1 = true
    ∧ MergeStep.executeMerge ∉ (merge_run_attempt env).2
    ∧ MergeStep.checkoutTrunk ∉ (merge_run_attempt env).2
    ∧ MergeStep.saveMergeState ∉ (merge_run_attempt env).2 := by
  unfold merge_run_attempt
  by_cases h1 : env.currentBranch = env.trunk
  · simp [h1, isErr]
  · by_cases h2 : env.wtHasUncommitted = true
    · simp [h1, h2, isErr]
    · have h3 : env.mainHasUncommitted = true ∨ env.mergeInProgress = true ∨
          env.rebaseInProgress = true := by
        rcases h with h | h | h | h | h
        · exact absurd h h1
        · exact absurd h h2
        · exact Or.inl h
        · exact Or.inr (Or.inl h)
        · exact Or.inr (Or.inr h)
      have hcond : (env.mainHasUncommitted || env.mergeInProgress ||
          env.rebaseInProgress) = true := by
        rcases h3 with h3 | h3 | h3 <;> simp [h3]
      by_cases hp : env.hasPreMergeHooks = true <;>
        simp [h1, h2, hcond, hp, isErr]

/-- C5 witness: the rejection evaluated at a concrete environment where the
source branch equals the target trunk. -/
theorem merge_preconditions_reject_witness :
    isErr (merge_run_attempt
      { currentBranch := str "main", trunk := str "main", wtHasUncommitted := false,
        mainHasUncommitted := false, mergeInProgress := false, rebaseInProgress := false,
        hasPreMergeHooks := false, hasPostMergeHooks := false, keep := false,
        mergeOutcome := .ok true }).1 = true
    ∧ MergeStep.executeMerge ∉ (merge_run_attempt
      { currentBranch := str "main", trunk := str "main", wtHasUncommitted := false,
        mainHasUncommitted := false, mergeInProgress := false, rebaseInProgress := false,
        hasPreMergeHooks := false, hasPostMergeHooks := false, keep := false,
        mergeOutcome := .ok true }).2 := by
  have h := merge_preconditions_reject
    { currentBranch := str "main", trunk := str "main", wtHasUncommitted := false,
      mainHasUncommitted := false, mergeInProgress := false, rebaseInProgress := false,
      hasPreMergeHooks := false, hasPostMergeHooks := false, keep := false,
      mergeOutcome := .ok true } (Or.inl rfl)
  exact ⟨h.1, h.2.1⟩

-- ---------------------------------------------------------------------------
-- Lemmas for error-message translation
-- ---------------------------------------------------------------------------

theorem stripPre_append (p s : List Char) : stripPre p (p ++ s) = some s := by
  unfold stripPre
  rw [isPrefixOf_append_self]
  simp

theorem dropWhile_ne_append (c : Char) (a r : List Char) (h : c ∉ a) :
    (a ++ c :: r).dropWhile (fun x => x ≠ c) = c :: r := by
  induction a with
  | nil => simp [List.dropWhile_cons]
  | cons d t ih =>
    have hd : ¬ d = c := by rintro rfl; exact h (List.mem_cons_self _ _)
    have ih' := ih (fun hm => h (List.mem_cons_of_mem _ hm))
    simp only [List.cons_append, List.dropWhile_cons]
    rw [if_pos (by simp [hd])]
    exact ih'

theorem takeWhile_ne_append (c : Char) (a r : List Char) (h : c ∉ a) :
    (a ++ c :: r).takeWhile (fun x => x ≠ c) = a := by
  induction a with
  | nil => simp [List.takeWhile_cons]
  | cons d t ih =>
    have hd : ¬ d = c := by rintro rfl; exact h (List.mem_cons_self _ _)
    have ih' := ih (fun hm => h (List.mem_cons_of_mem _ hm))
    simp only [List.cons_append, List.takeWhile_cons]
    rw [if_pos (by simp [hd]), ih']

/-- C8 counterexample: when stderr is empty, the stdout fallback message is
returned only trimmed — a leading `fatal: ` prefix is NOT stripped from
it, contradicting the claim that the resulting message always has such a
prefix stripped. -/
theorem extract_error_stdout_unstripped :
    extract_error { stdout := str "fatal: boom", stderr := str "" } = str "fatal: boom"
    ∧ (str "fatal: ").isPrefixOf
        (extract_error { stdout := str "fatal: boom", stderr := str "" }) = true
    ∧ extract_error { stdout := str "fatal: boom", stderr := str "" } ≠ str "boom" := by
  refine ⟨by decide, by decide, by decide⟩

/-- C8 (amended): the translated message is taken from stderr when stderr
is non-empty after trimming and from stdout otherwise; the leading
`fatal: ` / `error: ` prefix stripping and the worktree-removal rewrite
apply only to the stderr-sourced message (the stdout fallback is returned
verbatim, only trimmed).  The stderr-side behaviour: with a `fatal: ` (or
`error: `) prefix and no special-case text the prefix is stripped; when
the stripped message contains `contains modified or untracked files` and
quotes a path, the message is rewritten to a sentence naming the last path
component (the branch) and the `--force` flag. -/
theorem extract_error_amended (o : Output) :
    ((trimChars o.stderr).isEmpty = true → extract_error o = trimChars o.stdout)
    ∧ ((trimChars o.stderr).isEmpty = false → extract_error o = clean_git_error o.stderr)
    ∧ (∀ m, trimChars o.stderr = str "fatal: " ++ m →
        containsSub m (str "contains modified or untracked files") = false →
        extract_error o = m)
    ∧ (∀ m, trimChars o.stderr = str "error: " ++ m →
        containsSub m (str "contains modified or untracked files") = false →
        extract_error o = m)
    ∧ (∀ a path b,
        trimChars o.stderr = str "fatal: " ++ (a ++ '\'' :: (path ++ '\'' :: b)) →
        '\'' ∉ a → '\'' ∉ path →
        containsSub (a ++ '\'' :: (path ++ '\'' :: b))
          (str "contains modified or untracked files") = true →
        extract_error o =
          str "worktree '" ++ (splitOnChar '/' path).getLastD path ++
            str "' has uncommitted changes, use --force") := by
  refine ⟨?_, ?_, ?_, ?_, ?_⟩
  · intro h
    simp [extract_error, h]
  · intro h
    simp [extract_error, h]
  · intro m hm hcon
    have hne : (trimChars o.stderr).isEmpty = false := by rw [hm]; rfl
    have hclean : clean_git_error o.stderr = m := by
      unfold clean_git_error
      rw [hm]
      simp only [stripPre_append]
      simp [hcon]
    simp [extract_error, hne, hclean]
  · intro m hm hcon
    have hne : (trimChars o.stderr).isEmpty = false := by rw [hm]; rfl
    have hfat : stripPre (str "fatal: ") (str "error: " ++ m) = none := by
      have hpf : (str "fatal: ").isPrefixOf (str "error: " ++ m) = false := rfl
      simp [stripPre, hpf]
    have hclean : clean_git_error o.stderr = m := by
      unfold clean_git_error
      rw [hm]
      simp only [hfat, stripPre_append]
      simp [hcon]
    simp [extract_error, hne, hclean]
  · intro a path b hm ha hpath hcon
    have hne : (trimChars o.stderr).isEmpty = false := by rw [hm]; rfl
    have hdrop : (a ++ '\'' :: (path ++ '\'' :: b)).dropWhile (fun x => x ≠ '\'') =
        '\'' :: (path ++ '\'' :: b) := dropWhile_ne_append '\'' a (path ++ '\'' :: b) ha
    have hany : (path ++ '\'' :: b).any (fun c => c = '\'') = true := by
      refine List.any_eq_true.mpr ⟨'\'', ?_, by simp⟩
      exact List.mem_append.mpr (Or.inr (List.mem_cons_self _ _))
    have htake : (path ++ '\'' :: b).takeWhile (fun x => x ≠ '\'') = path :=
      takeWhile_ne_append '\'' path b hpath
    have hclean : clean_git_error o.stderr =
        str "worktree '" ++ (splitOnChar '/' path).getLastD path ++
          str "' has uncommitted changes, use --force" := by
      unfold clean_git_error
      rw [hm]
      simp only [stripPre_append]
      simp only [hcon, if_true, hdrop, hany, htake]
    simp [extract_error, hne, hclean]

/-- C8 witness: the amended behaviour evaluated at the worktree-removal
failure text the repository's own test (`test_clean_git_error_worktree_uncommitted`)
uses; the branch is the last component of the quoted path. -/
theorem extract_error_amended_witness :
    extract_error
      ⟨[], str "fatal: '/Users/foo/.agent-worktree/workspaces/proj/branch' contains modified or untracked files, use --force to delete it"⟩ =
      str "worktree 'branch' has uncommitted changes, use --force" := by
  have h := (extract_error_amended
      ⟨[], str "fatal: '/Users/foo/.agent-worktree/workspaces/proj/branch' contains modified or untracked files, use --force to delete it"⟩).2.2.2.2
    [] (str "/Users/foo/.agent-worktree/workspaces/proj/branch")
    (str " contains modified or untracked files, use --force to delete it")
    (by decide) (by decide) (by decide) (by decide)
  exact h

-- ---------------------------------------------------------------------------
-- Lemmas for the workspace identity
-- ---------------------------------------------------------------------------

theorem fromHex6_hex6 (n : Nat) (h : n < 16777216) : fromHex6 (hex6 n) = n := by
  have hu : ∀ d, d < 16 → unhexDigit (hexDigit d) = d := by decide
  have hred : fromHex6 (hex6 n) =
      ((((unhexDigit (hexDigit (n / 16 ^ 5 % 16)) * 16 +
        unhexDigit (hexDigit (n / 16 ^ 4 % 16))) * 16 +
        unhexDigit (hexDigit (n / 16 ^ 3 % 16))) * 16 +
        unhexDigit (hexDigit (n / 16 ^ 2 % 16))) * 16 +
        unhexDigit (hexDigit (n / 16 % 16))) * 16 +
        unhexDigit (hexDigit (n % 16)) := rfl
  rw [hred]
  rw [hu (n / 16 ^ 5 % 16) (Nat.mod_lt _ (by norm_num)),
    hu (n / 16 ^ 4 % 16) (Nat.mod_lt _ (by norm_num)),
    hu (n / 16 ^ 3 % 16) (Nat.mod_lt _ (by norm_num)),
    hu (n / 16 ^ 2 % 16) (Nat.mod_lt _ (by norm_num)),
    hu (n / 16 % 16) (Nat.mod_lt _ (by norm_num)),
    hu (n % 16) (Nat.mod_lt _ (by norm_num))]
  have h5 : (16 : Nat) ^ 5 = 1048576 := by norm_num
  have h4 : (16 : Nat) ^ 4 = 65536 := by norm_num
  have h3 : (16 : Nat) ^ 3 = 4096 := by norm_num
  have h2 : (16 : Nat) ^ 2 = 256 := by norm_num
  rw [h5, h4, h3, h2]
  omega

theorem hex6_inj (a b : Nat) (ha : a < 16777216) (hb : b < 16777216)
    (h : hex6 a = hex6 b) : a = b := by
  have := congrArg fromHex6 h
  rwa [fromHex6_hex6 a ha, fromHex6_hex6 b hb] at this

theorem hex6_length (n : Nat) : (hex6 n).length = 6 := rfl

theorem repo_name_pathFam (i : Nat) : repo_name (pathFam i) = str "repo" := by
  unfold repo_name pathFam
  have hna : '/' ∉ List.replicate i 'a' := by
    intro hm
    exact absurd (List.eq_of_mem_replicate hm) (by decide)
  have h1 : splitOnChar '/' ('/' :: (List.replicate i 'a' ++ '/' :: str "repo")) =
      [] :: splitOnChar '/' (List.replicate i 'a' ++ '/' :: str "repo") := by
    simp [splitOnChar]
  rw [h1, splitOnChar_append '/' _ _ hna, splitOnChar_of_not_mem '/' _ (by decide)]
  rfl

theorem pathFam_inj (i j : Nat) (h : pathFam i = pathFam j) : i = j := by
  have := congrArg List.length h
  simp [pathFam] at this
  exact this

/-- C7 counterexample: the no-collision half of the claim is false.  The
hash used by `workspace_id` is the standard library's `DefaultHasher`,
whose algorithm the standard library explicitly leaves unspecified, so the
claimed guarantee would have to hold for every hash function; it fails:
under a hash function and two distinct repository paths sharing the
directory name `repo`, the computed WorkspaceIds coincide. -/
theorem workspace_id_collision_counterexample :
    ¬ ∀ (hash : List Char → Nat) (p q : List Char),
        repo_name p = repo_name q → p ≠ q →
        workspace_id hash p ≠ workspace_id hash q := by
  intro h
  exact h (fun _ => 0) (str "/a/repo") (str "/b/repo") (by decide) (by decide) (by decide)

/-- C7 (amended): the WorkspaceId is the repository directory name, a
hyphen, and exactly six lowercase hex digits rendering the 24-bit
truncation of the path hash; two repositories receive the same WorkspaceId
precisely when they share a directory name and their truncated path hashes
coincide — so same-name repositories are separated exactly when their
truncated hashes differ, and no guarantee for all pairs is possible: for
every hash function there exist two distinct same-name paths whose
WorkspaceIds collide (the truncation has only `2^24` values). -/
theorem workspace_id_format_and_collisions :
    (∀ (hash : List Char → Nat) (p : List Char),
      workspace_id hash p = repo_name p ++ '-' :: hex6 (hash p % 16777216)
      ∧ (hex6 (hash p % 16777216)).length = 6
      ∧ ∀ c ∈ hex6 (hash p % 16777216), c ∈ str "0123456789abcdef")
    ∧ (∀ (hash : List Char → Nat) (p q : List Char),
        workspace_id hash p = workspace_id hash q ↔
          (repo_name p = repo_name q ∧ hash p % 16777216 = hash q % 16777216))
    ∧ (∀ hash : List Char → Nat, ∃ p q : List Char,
        p ≠ q ∧ repo_name p = repo_name q ∧ workspace_id hash p = workspace_id hash q) := by
  refine ⟨?_, ?_, ?_⟩
  · intro hash p
    refine ⟨rfl, rfl, ?_⟩
    have hd : ∀ d, d < 16 → hexDigit d ∈ str "0123456789abcdef" := by decide
    intro c hc
    simp only [hex6, List.mem_cons, List.not_mem_nil, or_false] at hc
    rcases hc with hc | hc | hc | hc | hc | hc <;>
      (rw [hc]; exact hd _ (Nat.mod_lt _ (by norm_num)))
  · intro hash p q
    constructor
    · intro h
      unfold workspace_id at h
      have hlen : ('-' :: hex6 (hash p % 16777216)).length =
          ('-' :: hex6 (hash q % 16777216)).length := rfl
      obtain ⟨hname, htail⟩ := List.append_inj' h (by rw [hlen])
      refine ⟨hname, ?_⟩
      have hh : hex6 (hash p % 16777216) = hex6 (hash q % 16777216) := by
        simpa using htail
      exact hex6_inj _ _ (Nat.mod_lt _ (by norm_num)) (Nat.mod_lt _ (by norm_num)) hh
    · rintro ⟨hname, hmod⟩
      unfold workspace_id
      rw [hname, hmod]
  · intro hash
    obtain ⟨i, j, hij, hf⟩ := Finite.exists_ne_map_eq_of_infinite
      (fun i : Nat => (⟨hash (pathFam i) % 16777216, Nat.mod_lt _ (by norm_num)⟩ :
        Fin 16777216))
    have hmod : hash (pathFam i) % 16777216 = hash (pathFam j) % 16777216 := by
      simpa using congrArg Fin.val hf
    refine ⟨pathFam i, pathFam j, fun he => hij (pathFam_inj i j he), ?_, ?_⟩
    · rw [repo_name_pathFam, repo_name_pathFam]
    · unfold workspace_id
      rw [repo_name_pathFam, repo_name_pathFam, hmod]

/-- C7 witness: the format evaluated at a concrete path and a concrete
hash function. -/
theorem workspace_id_format_witness :
    workspace_id (fun _ => 0) (str "/a/repo") = str "repo-000000" := by
  have h := (workspace_id_format_and_collisions).1 (fun _ => 0) (str "/a/repo")
  rw [h.1]
  decide

/-- C1: the claimed create-then-remove round trip fails on the code.
`new::run` resolves the worktree directory as
`{workspaces_dir}/{workspace_id}` (`workspace_id` always carries the
6-hex-digit hash suffix), while `rm::run` resolves it as
`{workspaces_dir}/{repo_name}` — the two paths can never coincide (first
conjunct), so for a fresh branch the removal fails with `WorktreeNotFound`
and leaves the worktree directory, the metadata file and the branch in
place, as evaluated here on a concrete repository state. -/
theorem new_then_rm_fails :
    (∀ (hash : List Char → Nat) (root : List Char),
      workspace_id hash root ≠ repo_name root)
    ∧ new_run (fun _ => 0) ⟨str "/home/u/.agent-worktree/workspaces"⟩
        (str "/home/u/repo")
        ⟨[str "main"], [(str "/home/u/repo", str "main")], [], [], []⟩
        (str "feature") =
      .ok ⟨[str "feature", str "main"],
        [(str "/home/u/.agent-worktree/workspaces/repo-000000/feature", str "feature"),
          (str "/home/u/repo", str "main")],
        [str "/home/u/.agent-worktree/workspaces/repo-000000/feature"],
        [str "/home/u/.agent-worktree/workspaces/repo-000000/feature.status.toml"], []⟩
    ∧ rm_run ⟨str "/home/u/.agent-worktree/workspaces"⟩ (str "/home/u/repo")
        ⟨[str "feature", str "main"],
          [(str "/home/u/.agent-worktree/workspaces/repo-000000/feature", str "feature"),
            (str "/home/u/repo", str "main")],
          [str "/home/u/.agent-worktree/workspaces/repo-000000/feature"],
          [str "/home/u/.agent-worktree/workspaces/repo-000000/feature.status.toml"], []⟩
        (str "feature") false =
      .error (.worktreeNotFound (str "feature"))
    ∧ str "/home/u/.agent-worktree/workspaces/repo-000000/feature" ∈
        ([str "/home/u/.agent-worktree/workspaces/repo-000000/feature"] : List (List Char))
    ∧ str "feature" ∈ ([str "feature", str "main"] : List (List Char)) := by
  refine ⟨?_, by decide, by decide, by decide, by decide⟩
  intro hash root h
  have hlen := congrArg List.length h
  simp [workspace_id, hex6] at hlen
